import Mathlib

/-!
# Shallow embedding of `loss_balancer.py`

The class `LossBalancer` keeps a cumulative per-class sample counter and, on
every call, rescales a per-sample loss tensor by normalized inverse-frequency
class weights.

Modelling conventions:
* a 1-d float tensor is a `List ℚ` (exact arithmetic in place of floats);
* a value torch makes non-finite (NaN/Inf) is `none : Option ℚ`;
* an integer label tensor is a `List ℤ`;
* `.to(loss.dtype).to(loss.device)` on line 53 is a representation cast and
  is dropped.
-/

/-- Model of `t.mean()` of a 1-d tensor: sum divided by length.  (For an empty tensor
torch yields NaN; the only place a zero mean can arise here is handled in
`normalize_weights`, which maps it to `none`.) -/
def tmean (l : List ℚ) : ℚ := l.sum / l.length

/-- Method `_update_n_sample_counter` (lines 38-41):
`for i in range(len(self.cum_n_samp_per_cls)): self.cum_n_samp_per_cls[i] += (Tb == i).sum()`,
where `(Tb == i).sum()` is the number of entries of `Tb` equal to `i`. -/
def update_n_sample_counter (cum : List ℚ) (Tb : List ℤ) : List ℚ :=
  (List.range cum.length).map fun i =>
    cum.getD i 0 + (Tb.countP (fun t => t == Int.ofNat i) : ℚ)

/-- Line 46: `probs_arr = 1. * self.cum_n_samp_per_cls / self.cum_n_samp_per_cls.sum()`
(the `1. *` is only a cast to float).  When the sum is zero torch produces
non-finite entries which then fail the `> 0` mask of `recip_probs_arr`,
exactly as the `x / 0 = 0` convention of `ℚ` does, so the masked reciprocal
below agrees with torch in that case. -/
def probs_arr (cum : List ℚ) : List ℚ := cum.map fun c => c / cum.sum

/-- Lines 47-49: `recip_probs_arr` is zero except where `probs_arr > 0`,
where it is `probs_arr ** (-1)` . -/
def recip_probs_arr (cum : List ℚ) : List ℚ :=
  (probs_arr cum).map fun p => if 0 < p then p⁻¹ else 0

/-- Lines 50-52 seen from one sample with label `t`: the entry starts as
`torch.zeros_like(Tb)`, and loop iteration `i` adds `recip_probs_arr[i]`
to it when `Tb == i` holds at this sample. -/
def sample_weight (K : ℕ) (recip : List ℚ) (t : ℤ) : ℚ :=
  (List.range K).foldl (fun w i => if t == Int.ofNat i then w + recip.getD i 0 else w) 0

/-- Lines 45-52: the per-sample raw weight tensor `weights`. -/
def raw_weights (K : ℕ) (cum : List ℚ) (Tb : List ℤ) : List ℚ :=
  Tb.map (sample_weight K (recip_probs_arr cum))

/-- Line 53: `weights / weights.mean()`.  The raw weights are nonnegative, so
the mean is zero exactly when every entry is zero, in which case every torch
entry is `0/0 = NaN`, modelled by `none`. -/
def normalize_weights (w : List ℚ) : List (Option ℚ) :=
  w.map fun x => if tmean w = 0 then none else some (x / tmean w)

/-- The state of a `LossBalancer` instance: `n_classes_int`, the cumulative
counter tensor and the cached (per-sample after any call) weight tensor. -/
structure LossBalancer where
  n_classes_int : ℕ
  cum_n_samp_per_cls : List ℚ
  weights_norm : List (Option ℚ)
deriving DecidableEq

/-- Constructor `__init__` (lines 21-24): zero counts and `torch.ones(K) / K`
weights. -/
def mkLossBalancer (K : ℕ) : LossBalancer :=
  ⟨K, List.replicate K 0, List.replicate K (some (1 / (K : ℚ)))⟩

/-- Method `__call__` (lines 26-36): update the counter when `train`, recompute the
weights from the (possibly updated) counts, multiply the loss elementwise by
`weights_norm` and return it.  The returned list is the content the caller's
`loss` tensor holds after the in-place `loss *= self.weights_norm`;
`LossBalancer.callRef` below models the aliasing itself. -/
def LossBalancer.call (b : LossBalancer) (loss : List ℚ) (Tb : List ℤ) (train : Bool) :
    LossBalancer × List (Option ℚ) :=
  let cum := if train then update_n_sample_counter b.cum_n_samp_per_cls Tb
             else b.cum_n_samp_per_cls
  let wn := normalize_weights (raw_weights b.n_classes_int cum Tb)
  (⟨b.n_classes_int, cum, wn⟩, List.zipWith (fun x w => w.map fun q => x * q) loss wn)

/-- Method `__call__` with Python object identity made explicit: tensors live in a
store indexed by references; line 35 `loss *= self.weights_norm` writes the
elementwise product through the caller's reference, and line 36 `return loss`
returns that same reference.  Store cells are `List (Option ℚ)` because a
cell may hold non-finite values. -/
def LossBalancer.callRef (b : LossBalancer) (store : ℕ → List (Option ℚ)) (lossRef : ℕ)
    (Tb : List ℤ) (train : Bool) : LossBalancer × (ℕ → List (Option ℚ)) × ℕ :=
  let cum := if train then update_n_sample_counter b.cum_n_samp_per_cls Tb
             else b.cum_n_samp_per_cls
  let wn := normalize_weights (raw_weights b.n_classes_int cum Tb)
  (⟨b.n_classes_int, cum, wn⟩,
   Function.update store lossRef
     (List.zipWith (fun x w => x.bind fun xq => w.map fun q => xq * q) (store lossRef) wn),
   lossRef)

/-- A sequence of calls, each made of a loss list, a label list and a train
flag. -/
def runCalls (b : LossBalancer) (cs : List (List ℚ × List ℤ × Bool)) : LossBalancer :=
  cs.foldl (fun s c => (s.call c.1 c.2.1 c.2.2).1) b

/-- A sequence of training calls (`train = true`). -/
def runTraining (b : LossBalancer) (cs : List (List ℚ × List ℤ)) : LossBalancer :=
  cs.foldl (fun s c => (s.call c.1 c.2 true).1) b

/-- A sequence of eval calls (`train = false`). -/
def runEval (b : LossBalancer) (cs : List (List ℚ × List ℤ)) : LossBalancer :=
  cs.foldl (fun s c => (s.call c.1 c.2 false).1) b

/-! ## Basic lemmas about the counter update -/

theorem length_update_n_sample_counter (cum : List ℚ) (Tb : List ℤ) :
    (update_n_sample_counter cum Tb).length = cum.length := by
  simp [update_n_sample_counter]

theorem getD_update_n_sample_counter (cum : List ℚ) (Tb : List ℤ) (c : ℕ)
    (hc : c < cum.length) :
    (update_n_sample_counter cum Tb).getD c 0 =
      cum.getD c 0 + (Tb.countP (fun t => t == Int.ofNat c) : ℚ) := by
  rw [update_n_sample_counter,
    List.getD_eq_getElem _ _ (by simpa using hc)]
  simp

theorem getD_update_n_sample_counter_nonneg (cum : List ℚ) (Tb : List ℤ)
    (h : ∀ i, 0 ≤ cum.getD i 0) (i : ℕ) :
    0 ≤ (update_n_sample_counter cum Tb).getD i 0 := by
  by_cases hi : i < cum.length
  · rw [getD_update_n_sample_counter cum Tb i hi]
    have := h i
    positivity
  · rw [List.getD_eq_default]
    rw [length_update_n_sample_counter]
    omega

/-! ## Lemmas about the weight computation -/

theorem length_probs_arr (cum : List ℚ) : (probs_arr cum).length = cum.length := by
  simp [probs_arr]

theorem length_recip_probs_arr (cum : List ℚ) :
    (recip_probs_arr cum).length = cum.length := by
  simp [recip_probs_arr, probs_arr]

theorem getD_recip_probs_arr_nonneg (cum : List ℚ) (i : ℕ) :
    0 ≤ (recip_probs_arr cum).getD i 0 := by
  by_cases hi : i < (recip_probs_arr cum).length
  · rw [List.getD_eq_getElem _ _ hi]
    simp only [recip_probs_arr, List.getElem_map]
    split
    · next h => exact le_of_lt (inv_pos.mpr h)
    · exact le_refl 0
  · rw [List.getD_eq_default _ _ (le_of_not_lt hi)]

theorem getD_recip_probs_arr_eq (cum : List ℚ) (c : ℕ) (hc : c < cum.length)
    (hpos : 0 < cum.getD c 0) (hsum : 0 < cum.sum) :
    (recip_probs_arr cum).getD c 0 = cum.sum / cum.getD c 0 := by
  rw [List.getD_eq_getElem _ _ (by rw [length_recip_probs_arr]; exact hc)]
  simp only [recip_probs_arr, probs_arr, List.getElem_map]
  rw [List.getD_eq_getElem _ _ hc] at hpos ⊢
  rw [if_pos (div_pos hpos hsum), inv_div]

theorem sample_weight_zero_classes (recip : List ℚ) (t : ℤ) :
    sample_weight 0 recip t = 0 := rfl

theorem sample_weight_succ (K : ℕ) (recip : List ℚ) (t : ℤ) :
    sample_weight (K + 1) recip t =
      if t == Int.ofNat K then sample_weight K recip t + recip.getD K 0
      else sample_weight K recip t := by
  simp [sample_weight, List.range_succ]

theorem sample_weight_eq (K : ℕ) (recip : List ℚ) (t : ℤ) :
    sample_weight K recip t =
      if 0 ≤ t ∧ t < (K : ℤ) then recip.getD t.toNat 0 else 0 := by
  induction K with
  | zero =>
    rw [sample_weight_zero_classes, if_neg]
    omega
  | succ K ih =>
    rw [sample_weight_succ, ih, Int.ofNat_eq_coe]
    by_cases hbk : t = (K : ℤ)
    · subst hbk
      rw [beq_self_eq_true, if_pos rfl, if_neg (by omega), if_pos (by constructor <;> omega)]
      rw [Int.toNat_ofNat, zero_add]
    · rw [if_neg (by simpa using hbk)]
      by_cases hlt : 0 ≤ t ∧ t < (K : ℤ)
      · rw [if_pos hlt, if_pos ⟨hlt.1, by omega⟩]
      · rw [if_neg hlt, if_neg (by omega)]

theorem sample_weight_recip_nonneg (K : ℕ) (cum : List ℚ) (t : ℤ) :
    0 ≤ sample_weight K (recip_probs_arr cum) t := by
  rw [sample_weight_eq]
  split
  · exact getD_recip_probs_arr_nonneg cum t.toNat
  · exact le_refl 0

theorem length_raw_weights (K : ℕ) (cum : List ℚ) (Tb : List ℤ) :
    (raw_weights K cum Tb).length = Tb.length := by
  simp [raw_weights]

theorem getD_raw_weights (K : ℕ) (cum : List ℚ) (Tb : List ℤ) (i : ℕ)
    (hi : i < Tb.length) :
    (raw_weights K cum Tb).getD i 0 =
      sample_weight K (recip_probs_arr cum) (Tb.getD i 0) := by
  rw [raw_weights, List.getD_eq_getElem _ _ (by simpa using hi),
    List.getElem_map, List.getD_eq_getElem _ _ hi]

theorem raw_weights_nonneg (K : ℕ) (cum : List ℚ) (Tb : List ℤ) :
    ∀ x ∈ raw_weights K cum Tb, 0 ≤ x := by
  intro x hx
  obtain ⟨t, _, rfl⟩ := List.mem_map.mp hx
  exact sample_weight_recip_nonneg K cum t

/-! ## Lemmas about the mean and the normalization -/

theorem tmean_pos (w : List ℚ) (hnn : ∀ x ∈ w, 0 ≤ x) (i : ℕ)
    (hi : i < w.length) (hpos : 0 < w.getD i 0) : 0 < tmean w := by
  rw [List.getD_eq_getElem _ _ hi] at hpos
  have hle : w[i] ≤ w.sum := List.single_le_sum hnn _ (List.getElem_mem hi)
  have hlen : (0 : ℚ) < w.length := by
    have : 0 < w.length := by omega
    exact_mod_cast this
  exact div_pos (lt_of_lt_of_le hpos hle) hlen

theorem length_normalize_weights (w : List ℚ) :
    (normalize_weights w).length = w.length := by
  simp [normalize_weights]

theorem getD_normalize_weights (w : List ℚ) (i : ℕ) (hm : tmean w ≠ 0)
    (hi : i < w.length) :
    (normalize_weights w).getD i none = some (w.getD i 0 / tmean w) := by
  rw [normalize_weights, List.getD_eq_getElem _ _ (by simpa using hi),
    List.getElem_map, if_neg hm, List.getD_eq_getElem _ _ hi]

theorem tmean_replicate (n : ℕ) (a : ℚ) (hn : n ≠ 0) :
    tmean (List.replicate n a) = a := by
  rw [tmean, List.sum_replicate, List.length_replicate, nsmul_eq_mul]
  have : (n : ℚ) ≠ 0 := Nat.cast_ne_zero.mpr hn
  field_simp

/-! ## Lemmas about `call` and call sequences -/

theorem call_fst_n_classes (b : LossBalancer) (loss : List ℚ) (Tb : List ℤ)
    (train : Bool) :
    ((b.call loss Tb train).1).n_classes_int = b.n_classes_int := rfl

theorem call_fst_cum (b : LossBalancer) (loss : List ℚ) (Tb : List ℤ)
    (train : Bool) :
    ((b.call loss Tb train).1).cum_n_samp_per_cls =
      if train then update_n_sample_counter b.cum_n_samp_per_cls Tb
      else b.cum_n_samp_per_cls := rfl

theorem call_fst_cum_length (b : LossBalancer) (loss : List ℚ) (Tb : List ℤ)
    (train : Bool) :
    ((b.call loss Tb train).1).cum_n_samp_per_cls.length =
      b.cum_n_samp_per_cls.length := by
  rw [call_fst_cum]
  cases train
  · rfl
  · simp [length_update_n_sample_counter]

theorem call_fst_weights (b : LossBalancer) (loss : List ℚ) (Tb : List ℤ)
    (train : Bool) :
    ((b.call loss Tb train).1).weights_norm =
      normalize_weights (raw_weights b.n_classes_int
        ((b.call loss Tb train).1).cum_n_samp_per_cls Tb) := rfl

theorem call_snd (b : LossBalancer) (loss : List ℚ) (Tb : List ℤ) (train : Bool) :
    (b.call loss Tb train).2 =
      List.zipWith (fun x w => w.map fun q => x * q) loss
        ((b.call loss Tb train).1).weights_norm := rfl

theorem runCalls_inv (cs : List (List ℚ × List ℤ × Bool)) (b : LossBalancer) :
    (runCalls b cs).n_classes_int = b.n_classes_int ∧
    (runCalls b cs).cum_n_samp_per_cls.length = b.cum_n_samp_per_cls.length ∧
    ((∀ i, 0 ≤ b.cum_n_samp_per_cls.getD i 0) →
      ∀ i, 0 ≤ (runCalls b cs).cum_n_samp_per_cls.getD i 0) := by
  induction cs generalizing b with
  | nil => exact ⟨rfl, rfl, fun h => h⟩
  | cons c cs ih =>
    have hstep : runCalls b (c :: cs) = runCalls ((b.call c.1 c.2.1 c.2.2).1) cs := rfl
    rw [hstep]
    obtain ⟨h1, h2, h3⟩ := ih ((b.call c.1 c.2.1 c.2.2).1)
    refine ⟨h1.trans (call_fst_n_classes ..), h2.trans (call_fst_cum_length ..), ?_⟩
    intro hb i
    refine h3 ?_ i
    intro j
    rw [call_fst_cum]
    cases c.2.2
    · exact hb j
    · exact getD_update_n_sample_counter_nonneg _ _ hb j

theorem getD_replicate (n : ℕ) (a : ℚ) (i : ℕ) (hi : i < n) :
    (List.replicate n a).getD i 0 = a := by
  rw [List.getD_eq_getElem _ _ (by simpa using hi), List.getElem_replicate]

theorem getD_replicate_zero (n i : ℕ) :
    (List.replicate n (0 : ℚ)).getD i 0 = 0 := by
  by_cases hi : i < n
  · exact getD_replicate n 0 i hi
  · exact List.getD_eq_default _ _ (by simpa using hi)

theorem zipWith_map_some (l : List ℚ) (wn : List (Option ℚ)) :
    List.zipWith (fun x w => x.bind fun xq => w.map fun q => xq * q) (l.map some) wn =
      List.zipWith (fun x w => w.map fun q => x * q) l wn := by
  induction l generalizing wn with
  | nil => simp
  | cons a l ih =>
    cases wn with
    | nil => simp
    | cons w wn => simpa using ih wn

theorem zipWith_replicate_none (loss : List ℚ) (N : ℕ) (h : loss.length = N) :
    List.zipWith (fun x w => w.map fun q => x * q) loss
      (List.replicate N (none : Option ℚ)) = List.replicate N none := by
  induction loss generalizing N with
  | nil =>
    subst h
    rfl
  | cons a l ih =>
    cases N with
    | zero => simp at h
    | succ N =>
      simp only [List.replicate_succ, List.zipWith_cons_cons, Option.map_none']
      rw [ih N (by simpa using h)]

theorem zipWith_replicate_some_one (loss : List ℚ) (N : ℕ) (h : loss.length = N) :
    List.zipWith (fun x w => w.map fun q => x * q) loss
      (List.replicate N (some (1 : ℚ))) = loss.map some := by
  induction loss generalizing N with
  | nil =>
    subst h
    rfl
  | cons a l ih =>
    cases N with
    | zero => simp at h
    | succ N =>
      simp only [List.replicate_succ, List.zipWith_cons_cons, Option.map_some', mul_one,
        List.map_cons]
      rw [ih N (by simpa using h)]

/-! ## Claim C3 -/

/-- Claim C3: for every balancer state and every sequence of batches, calling
`apply` with `is_training = false` any number of times leaves every entry of
`ClassCount` (the tensor `cum_n_samp_per_cls`) exactly equal to its value
before those calls. -/
theorem eval_calls_preserve_counts (b : LossBalancer) (cs : List (List ℚ × List ℤ)) :
    (runEval b cs).cum_n_samp_per_cls = b.cum_n_samp_per_cls := by
  induction cs generalizing b with
  | nil => rfl
  | cons c cs ih =>
    have hstep : runEval b (c :: cs) = runEval ((b.call c.1 c.2 false).1) cs := rfl
    rw [hstep, ih]
    rfl

/-! ## Claim C10 -/

/-- Claim C10: every `__call__` rescales the caller's loss tensor in place:
the returned reference is the very reference that was passed in, the cell it
points to is overwritten with `loss[i] * w_norm[i]`, and when the cell held
the finite values `l` its new content is exactly what `LossBalancer.call`
returns for `l`. -/
theorem call_rescales_in_place (b : LossBalancer) (store : ℕ → List (Option ℚ))
    (lossRef : ℕ) (Tb : List ℤ) (train : Bool) (l : List ℚ)
    (hstore : store lossRef = l.map some) :
    (b.callRef store lossRef Tb train).2.2 = lossRef ∧
    (b.callRef store lossRef Tb train).2.1 lossRef =
      List.zipWith (fun x w => x.bind fun xq => w.map fun q => xq * q) (store lossRef)
        ((b.callRef store lossRef Tb train).1).weights_norm ∧
    (b.callRef store lossRef Tb train).2.1 lossRef = (b.call l Tb train).2 := by
  refine ⟨rfl, ?_, ?_⟩
  · exact Function.update_same ..
  · show Function.update store lossRef _ lossRef = _
    rw [Function.update_same, hstore, zipWith_map_some]
    rfl

/-- Witness for C10 at the concrete scenario of `__main__`. -/
theorem call_rescales_in_place_witness :
    ((fun _ : ℕ => [some (1:ℚ), some 1, some 1, some 1, some 1, some 1]) 0 =
      ([1, 1, 1, 1, 1, 1] : List ℚ).map some) ∧
    (((mkLossBalancer 3).callRef
        (fun _ => [some 1, some 1, some 1, some 1, some 1, some 1]) 0
        [0, 0, 0, 1, 1, 2] true).2.2 = 0 ∧
     ((mkLossBalancer 3).callRef
        (fun _ => [some 1, some 1, some 1, some 1, some 1, some 1]) 0
        [0, 0, 0, 1, 1, 2] true).2.1 0 =
      List.zipWith (fun x w => x.bind fun xq => w.map fun q => xq * q)
        ((fun _ : ℕ => [some (1:ℚ), some 1, some 1, some 1, some 1, some 1]) 0)
        (((mkLossBalancer 3).callRef
            (fun _ => [some 1, some 1, some 1, some 1, some 1, some 1]) 0
            [0, 0, 0, 1, 1, 2] true).1).weights_norm ∧
     ((mkLossBalancer 3).callRef
        (fun _ => [some 1, some 1, some 1, some 1, some 1, some 1]) 0
        [0, 0, 0, 1, 1, 2] true).2.1 0 =
      ((mkLossBalancer 3).call [1, 1, 1, 1, 1, 1] [0, 0, 0, 1, 1, 2] true).2) :=
  ⟨rfl, call_rescales_in_place (mkLossBalancer 3)
    (fun _ => [some 1, some 1, some 1, some 1, some 1, some 1]) 0
    [0, 0, 0, 1, 1, 2] true [1, 1, 1, 1, 1, 1] rfl⟩

/-! ## Claim C4 -/

/-- Claim C4: whenever the mean of the broadcast per-sample weight vector `w`
is non-zero, the mean over the batch of the normalized per-sample weights
`w_norm = w / mean(w)` equals 1 (exactly, in the rational model). -/
theorem normalized_weights_mean_one (K : ℕ) (cum : List ℚ) (Tb : List ℤ)
    (h : tmean (raw_weights K cum Tb) ≠ 0) :
    tmean ((normalize_weights (raw_weights K cum Tb)).map fun o => o.getD 0) = 1 := by
  set w := raw_weights K cum Tb with hw
  have hN : ((w.length : ℚ)) ≠ 0 := by
    intro h0
    exact h (by rw [tmean, h0, div_zero])
  have hs : w.sum ≠ 0 := by
    intro h0
    exact h (by rw [tmean, h0, zero_div])
  have h1 : (normalize_weights w).map (fun o => o.getD 0) = w.map fun x => x / tmean w := by
    simp [normalize_weights, if_neg h, Function.comp]
  rw [h1, tmean, List.length_map]
  have hsum : (w.map fun x => x / tmean w).sum = w.sum / tmean w := by
    simp only [div_eq_mul_inv]
    rw [List.sum_map_mul_right, List.map_id']
  rw [hsum, tmean]
  field_simp

/-- Witness for C4 at the `__main__` scenario weights. -/
theorem normalized_weights_mean_one_witness :
    tmean (raw_weights 3 [3, 2, 1] [0, 0, 0, 1, 1, 2]) ≠ 0 ∧
    tmean ((normalize_weights (raw_weights 3 [3, 2, 1] [0, 0, 0, 1, 1, 2])).map
      fun o => o.getD 0) = 1 :=
  ⟨by
    simp [raw_weights, sample_weight, recip_probs_arr, probs_arr, tmean,
      List.range_succ]
    norm_num,
   normalized_weights_mean_one 3 [3, 2, 1] [0, 0, 0, 1, 1, 2] (by
    simp [raw_weights, sample_weight, recip_probs_arr, probs_arr, tmean,
      List.range_succ]
    norm_num)⟩

/-! ## Claim C8 (corrected) -/

/-- Counterexample to C8 as stated: immediately after construction with
`n_classes = 3` the cached weight vector is `[1/3, 1/3, 1/3]`, whose mean is
`1/3`, not 1. -/
theorem initial_weight_mean_counterexample :
    (mkLossBalancer 3).weights_norm = List.replicate 3 (some (1/3)) ∧
    tmean ((mkLossBalancer 3).weights_norm.map fun o => o.getD 0) = 1/3 ∧
    tmean ((mkLossBalancer 3).weights_norm.map fun o => o.getD 0) ≠ 1 := by
  refine ⟨rfl, ?_, ?_⟩ <;>
    · simp [mkLossBalancer, tmean]
      norm_num

/-- Claim C8 amended: immediately after construction of a balancer with
`n_classes = K > 0`, the cached weight vector has size `K`, all entries equal
(each `1/K`), and its mean is `1/K` (so it is mean-1 only when `K = 1`). -/
theorem initial_weight_vector_uniform (K : ℕ) (hK : 0 < K) :
    (mkLossBalancer K).weights_norm.length = K ∧
    (mkLossBalancer K).weights_norm = List.replicate K (some (1 / (K : ℚ))) ∧
    tmean ((mkLossBalancer K).weights_norm.map fun o => o.getD 0) = 1 / (K : ℚ) := by
  refine ⟨by simp [mkLossBalancer], rfl, ?_⟩
  rw [mkLossBalancer]
  simp only [List.map_replicate, Option.getD_some]
  exact tmean_replicate K _ (by omega)

/-- Witness for the amended C8 at `K = 3`. -/
theorem initial_weight_vector_uniform_witness :
    (0 < 3) ∧
    ((mkLossBalancer 3).weights_norm.length = 3 ∧
     (mkLossBalancer 3).weights_norm = List.replicate 3 (some (1 / (3 : ℚ))) ∧
     tmean ((mkLossBalancer 3).weights_norm.map fun o => o.getD 0) = 1 / (3 : ℚ)) :=
  ⟨by decide, initial_weight_vector_uniform 3 (by decide)⟩

/-! ## Claim C6 (corrected) -/

/-- Counterexample to C6 as stated: a call whose labels contain `5`, out of
range for `n_classes = 2`, does not fail: it returns an ordinary, fully
defined result.  The bad label increments no class counter (the counts move
from `[1, 1]` to `[2, 1]`, accounting only for the in-range label `0`) and
the sample carrying it simply gets weight zero. -/
theorem out_of_range_label_no_error :
    (((mkLossBalancer 2).call [1, 1] [0, 1] true).1).call [1, 1] [5, 0] true =
      (⟨2, [2, 1], [some 0, some 2]⟩, [some 0, some 2]) ∧ ¬((5 : ℤ) < 2) := by
  constructor
  · simp [LossBalancer.call, mkLossBalancer, update_n_sample_counter, probs_arr,
      recip_probs_arr, sample_weight, raw_weights, normalize_weights, tmean,
      List.range_succ, List.countP_cons]
    norm_num
  · decide

/-- Claim C6 amended: a label outside `[0, n_classes-1]` raises no error and
is silently ignored: every class counter entry `c` still changes exactly by
the number of samples labelled `c` (so the out-of-range label corrupts no
entry), and the sample carrying the out-of-range label receives raw weight
zero. -/
theorem out_of_range_label_ignored (cum : List ℚ) (Tb : List ℤ) (c : ℕ)
    (K : ℕ) (recip : List ℚ) (t : ℤ) (hc : c < cum.length)
    (ht : ¬(0 ≤ t ∧ t < (K : ℤ))) :
    (update_n_sample_counter cum Tb).getD c 0 =
      cum.getD c 0 + (Tb.countP (fun x => x == Int.ofNat c) : ℚ) ∧
    sample_weight K recip t = 0 :=
  ⟨getD_update_n_sample_counter cum Tb c hc, by rw [sample_weight_eq, if_neg ht]⟩

/-- Witness for the amended C6: label `5` with `n_classes = 2`. -/
theorem out_of_range_label_ignored_witness :
    ((0 : ℕ) < 2 ∧ ¬((0 : ℤ) ≤ 5 ∧ (5 : ℤ) < 2)) ∧
    ((update_n_sample_counter [1, 1] [5, 0]).getD 0 0 =
      ([1, 1] : List ℚ).getD 0 0 +
        (([5, 0] : List ℤ).countP (fun x => x == Int.ofNat 0) : ℚ) ∧
     sample_weight 2 [3/2, 3] 5 = 0) :=
  ⟨⟨by decide, by decide⟩,
   out_of_range_label_ignored [1, 1] [5, 0] 0 2 [3/2, 3] 5 (by decide) (by decide)⟩

/-! ## Claim C7 -/

theorem recip_probs_arr_replicate_zero (K : ℕ) :
    recip_probs_arr (List.replicate K (0 : ℚ)) = List.replicate K 0 := by
  rw [recip_probs_arr, probs_arr]
  simp

theorem tmean_replicate_zero (n : ℕ) : tmean (List.replicate n (0 : ℚ)) = 0 := by
  rw [tmean, List.sum_replicate, smul_zero, zero_div]

/-- Claim C7: on a balancer whose class counts are still all zero (fresh
construction, possibly followed by any number of `is_training = false`
calls), an eval call computes all-zero raw per-class weights, the
normalization divides by the zero mean, and the returned rescaled loss is
non-finite (`none`, modelling NaN) for every sample in the batch. -/
theorem degenerate_first_call_nan (K : ℕ) (b : LossBalancer) (loss : List ℚ)
    (Tb : List ℤ) (hb : b.cum_n_samp_per_cls = List.replicate K 0)
    (hlen : loss.length = Tb.length) :
    raw_weights b.n_classes_int b.cum_n_samp_per_cls Tb = List.replicate Tb.length 0 ∧
    tmean (raw_weights b.n_classes_int b.cum_n_samp_per_cls Tb) = 0 ∧
    (b.call loss Tb false).2 = List.replicate Tb.length none := by
  have hsw : ∀ t : ℤ, sample_weight b.n_classes_int
      (recip_probs_arr b.cum_n_samp_per_cls) t = 0 := by
    intro t
    rw [hb, recip_probs_arr_replicate_zero, sample_weight_eq]
    split
    · exact getD_replicate_zero K t.toNat
    · rfl
  have hraw : raw_weights b.n_classes_int b.cum_n_samp_per_cls Tb =
      List.replicate Tb.length 0 := by
    rw [raw_weights]
    refine List.eq_replicate_iff.mpr ⟨by simp, ?_⟩
    intro x hx
    obtain ⟨t, _, rfl⟩ := List.mem_map.mp hx
    exact hsw t
  refine ⟨hraw, by rw [hraw, tmean_replicate_zero], ?_⟩
  have hwn : normalize_weights (raw_weights b.n_classes_int b.cum_n_samp_per_cls Tb) =
      List.replicate Tb.length none := by
    rw [hraw, normalize_weights]
    simp [tmean_replicate_zero]
  show List.zipWith _ loss
    (normalize_weights (raw_weights b.n_classes_int b.cum_n_samp_per_cls Tb)) = _
  rw [hwn, zipWith_replicate_none loss Tb.length hlen]

/-- Witness for C7: a fresh 3-class balancer evaluated on a 2-sample batch. -/
theorem degenerate_first_call_nan_witness :
    ((mkLossBalancer 3).cum_n_samp_per_cls = List.replicate 3 0 ∧
      ([5, 7] : List ℚ).length = ([0, 2] : List ℤ).length) ∧
    (raw_weights (mkLossBalancer 3).n_classes_int
        (mkLossBalancer 3).cum_n_samp_per_cls [0, 2] = List.replicate 2 0 ∧
     tmean (raw_weights (mkLossBalancer 3).n_classes_int
        (mkLossBalancer 3).cum_n_samp_per_cls [0, 2]) = 0 ∧
     ((mkLossBalancer 3).call [5, 7] [0, 2] false).2 = List.replicate 2 none) :=
  ⟨⟨rfl, rfl⟩, degenerate_first_call_nan 3 (mkLossBalancer 3) [5, 7] [0, 2] rfl rfl⟩

/-! ## Claim C1 -/

/-- Claim C1: for a fresh balancer with `n_classes = 3`, one training call
with loss `[1,1,1,1,1,1]` and labels `[0,0,0,1,1,2]` leaves the class counts
at `[3,2,1]` and returns the rescaled loss `[2/3,2/3,2/3,1,1,2]`, whose mean
equals the original mean loss 1. -/
theorem first_call_scenario :
    (mkLossBalancer 3).call [1, 1, 1, 1, 1, 1] [0, 0, 0, 1, 1, 2] true =
      (⟨3, [3, 2, 1],
        [some (2/3), some (2/3), some (2/3), some 1, some 1, some 2]⟩,
       [some (2/3), some (2/3), some (2/3), some 1, some 1, some 2]) ∧
    tmean ((((mkLossBalancer 3).call [1, 1, 1, 1, 1, 1] [0, 0, 0, 1, 1, 2] true).2).map
      fun o => o.getD 0) = 1 ∧
    tmean [1, 1, 1, 1, 1, 1] = 1 := by
  have hcall : (mkLossBalancer 3).call [1, 1, 1, 1, 1, 1] [0, 0, 0, 1, 1, 2] true =
      (⟨3, [3, 2, 1],
        [some (2/3), some (2/3), some (2/3), some 1, some 1, some 2]⟩,
       [some (2/3), some (2/3), some (2/3), some 1, some 1, some 2]) := by
    simp [LossBalancer.call, mkLossBalancer, update_n_sample_counter, probs_arr,
      recip_probs_arr, sample_weight, raw_weights, normalize_weights, tmean,
      List.range_succ, List.countP_cons]
    norm_num
  refine ⟨hcall, ?_, ?_⟩
  · rw [hcall]
    simp [tmean]
    norm_num
  · simp [tmean]
    norm_num

/-! ## Claim C2 -/

theorem runTraining_getD (cs : List (List ℚ × List ℤ)) (b : LossBalancer) (c : ℕ)
    (hc : c < b.cum_n_samp_per_cls.length) :
    (runTraining b cs).cum_n_samp_per_cls.getD c 0 =
      b.cum_n_samp_per_cls.getD c 0 +
        (cs.map fun p => ((p.2.countP fun t => t == Int.ofNat c : ℕ) : ℚ)).sum := by
  induction cs generalizing b with
  | nil => simp [runTraining]
  | cons p cs ih =>
    have hstep : runTraining b (p :: cs) = runTraining ((b.call p.1 p.2 true).1) cs := rfl
    rw [hstep, ih _ (by rw [call_fst_cum_length]; exact hc)]
    rw [call_fst_cum, if_pos rfl, getD_update_n_sample_counter _ _ _ hc,
      List.map_cons, List.sum_cons]
    ring

/-- Claim C2: along any sequence of training calls whose labels lie in
`[0, n_classes-1]`, each class-count entry is non-decreasing from call `n` to
call `n+1`, and after the first `n` calls it equals the exact total number of
samples with that label seen in those calls. -/
theorem counts_monotone_and_exact (K : ℕ) (cs : List (List ℚ × List ℤ)) (c n : ℕ)
    (hc : c < K) (hlab : ∀ p ∈ cs, ∀ t ∈ p.2, 0 ≤ t ∧ t < (K : ℤ)) :
    (runTraining (mkLossBalancer K) (cs.take n)).cum_n_samp_per_cls.getD c 0 ≤
      (runTraining (mkLossBalancer K) (cs.take (n + 1))).cum_n_samp_per_cls.getD c 0 ∧
    (runTraining (mkLossBalancer K) (cs.take n)).cum_n_samp_per_cls.getD c 0 =
      ((cs.take n).map fun p => ((p.2.countP fun t => t == Int.ofNat c : ℕ) : ℚ)).sum := by
  have hlen : c < (mkLossBalancer K).cum_n_samp_per_cls.length := by
    simpa [mkLossBalancer] using hc
  have hbase : (mkLossBalancer K).cum_n_samp_per_cls.getD c 0 = 0 :=
    getD_replicate_zero K c
  have h1 := runTraining_getD (cs.take n) _ c hlen
  have h2 := runTraining_getD (cs.take (n + 1)) _ c hlen
  rw [hbase, zero_add] at h1 h2
  refine ⟨?_, h1⟩
  rw [h1, h2, List.take_succ, List.map_append, List.sum_append]
  have hextra : 0 ≤ ((cs[n]?.toList).map
      fun p => ((p.2.countP fun t => t == Int.ofNat c : ℕ) : ℚ)).sum := by
    refine List.sum_nonneg ?_
    intro x hx
    obtain ⟨p, _, rfl⟩ := List.mem_map.mp hx
    exact Nat.cast_nonneg _
  linarith

/-- Witness for C2: two batches with `n_classes = 2`, checked after the first
call. -/
theorem counts_monotone_and_exact_witness :
    ((0 : ℕ) < 2 ∧ ∀ p ∈ ([([1, 1], [0, 1]), ([1], [0])] : List (List ℚ × List ℤ)),
      ∀ t ∈ p.2, 0 ≤ t ∧ t < (2 : ℤ)) ∧
    ((runTraining (mkLossBalancer 2)
        (([([1, 1], [0, 1]), ([1], [0])] : List (List ℚ × List ℤ)).take 1)).cum_n_samp_per_cls.getD 0 0 ≤
      (runTraining (mkLossBalancer 2)
        (([([1, 1], [0, 1]), ([1], [0])] : List (List ℚ × List ℤ)).take 2)).cum_n_samp_per_cls.getD 0 0 ∧
     (runTraining (mkLossBalancer 2)
        (([([1, 1], [0, 1]), ([1], [0])] : List (List ℚ × List ℤ)).take 1)).cum_n_samp_per_cls.getD 0 0 =
      ((([([1, 1], [0, 1]), ([1], [0])] : List (List ℚ × List ℤ)).take 1).map
        fun p => ((p.2.countP fun t => t == Int.ofNat 0 : ℕ) : ℚ)).sum) :=
  ⟨⟨by decide, by decide⟩,
   counts_monotone_and_exact 2 [([1, 1], [0, 1]), ([1], [0])] 0 1 (by decide) (by decide)⟩

/-! ## Claim C9 (corrected) -/

/-- Counterexample to C9 as stated: the balancer reaches equal positive
counts `[1, 1]`, but a subsequent training call first adds its own batch
`[0, 0, 1]` to the counts, making them `[3, 2]`, so the returned loss
`[6/7, 6/7, 9/7]` differs from the input `[1, 1, 1]`. -/
theorem equal_counts_roundtrip_counterexample :
    (((mkLossBalancer 2).call [1, 1] [0, 1] true).1).cum_n_samp_per_cls = [1, 1] ∧
    ((((mkLossBalancer 2).call [1, 1] [0, 1] true).1).call [1, 1, 1] [0, 0, 1] true).2 =
      [some (6/7), some (6/7), some (9/7)] ∧
    ((((mkLossBalancer 2).call [1, 1] [0, 1] true).1).call [1, 1, 1] [0, 0, 1] true).2 ≠
      ([1, 1, 1] : List ℚ).map some := by
  have h1 : ((mkLossBalancer 2).call [1, 1] [0, 1] true).1 =
      ⟨2, [1, 1], [some 1, some 1]⟩ := by
    simp [LossBalancer.call, mkLossBalancer, update_n_sample_counter, probs_arr,
      recip_probs_arr, sample_weight, raw_weights, normalize_weights, tmean,
      List.range_succ, List.countP_cons]
  have h2 : ((⟨2, [1, 1], [some 1, some 1]⟩ : LossBalancer).call [1, 1, 1] [0, 0, 1] true).2 =
      [some (6/7), some (6/7), some (9/7)] := by
    simp [LossBalancer.call, update_n_sample_counter, probs_arr,
      recip_probs_arr, sample_weight, raw_weights, normalize_weights, tmean,
      List.range_succ, List.countP_cons]
    norm_num
  refine ⟨by rw [h1], by rw [h1, h2], ?_⟩
  rw [h1, h2]
  simp
  norm_num

/-- Claim C9 amended: whenever the class counts are all equal to the same
positive value *after the call's own count-update step* (so in particular for
any `is_training = false` call made at equal positive counts, or a training
call whose batch keeps them equal), every per-sample normalized weight is 1
and the returned loss equals the input loss, regardless of the loss values. -/
theorem equal_counts_roundtrip (K : ℕ) (q : ℚ) (b : LossBalancer) (loss : List ℚ)
    (Tb : List ℤ) (train : Bool) (hK : b.n_classes_int = K)
    (hcum : (if train then update_n_sample_counter b.cum_n_samp_per_cls Tb
             else b.cum_n_samp_per_cls) = List.replicate K q)
    (hq : 0 < q) (hlab : ∀ t ∈ Tb, 0 ≤ t ∧ t < (K : ℤ))
    (hlen : loss.length = Tb.length) :
    ((b.call loss Tb train).1).weights_norm = List.replicate Tb.length (some 1) ∧
    (b.call loss Tb train).2 = loss.map some := by
  by_cases hTb : Tb = []
  · subst hTb
    have hl : loss = [] := List.length_eq_zero.mp hlen
    subst hl
    exact ⟨rfl, rfl⟩
  · have hK0 : 0 < K := by
      obtain ⟨t, ht⟩ := List.exists_mem_of_ne_nil Tb hTb
      have := hlab t ht
      omega
    have hKQ : ((K : ℚ)) ≠ 0 := Nat.cast_ne_zero.mpr (by omega)
    have hwn_arg : ((b.call loss Tb train).1).cum_n_samp_per_cls =
        List.replicate K q := by rw [call_fst_cum, hcum]
    have hrecip : recip_probs_arr (List.replicate K q) =
        List.replicate K ((K : ℚ)) := by
      rw [recip_probs_arr, probs_arr, List.sum_replicate, nsmul_eq_mul]
      simp only [List.map_replicate]
      congr 1
      rw [if_pos (div_pos hq (by positivity)), inv_div, mul_div_assoc,
        div_self (ne_of_gt hq), mul_one]
    have hraw : raw_weights b.n_classes_int (List.replicate K q) Tb =
        List.replicate Tb.length ((K : ℚ)) := by
      rw [raw_weights]
      refine List.eq_replicate_iff.mpr ⟨by simp, ?_⟩
      intro x hx
      obtain ⟨t, htmem, rfl⟩ := List.mem_map.mp hx
      have hrange := hlab t htmem
      rw [hrecip, sample_weight_eq, hK, if_pos hrange]
      exact getD_replicate K _ t.toNat (by omega)
    have hlenTb : Tb.length ≠ 0 := fun h => hTb (List.length_eq_zero.mp h)
    have hmean : tmean (List.replicate Tb.length ((K : ℚ))) = (K : ℚ) :=
      tmean_replicate _ _ hlenTb
    have hwn : ((b.call loss Tb train).1).weights_norm =
        List.replicate Tb.length (some 1) := by
      rw [call_fst_weights, hwn_arg, hraw, normalize_weights, List.map_replicate,
        hmean, if_neg hKQ, div_self hKQ]
    refine ⟨hwn, ?_⟩
    rw [call_snd, hwn, zipWith_replicate_some_one loss Tb.length hlen]

/-- Witness for the amended C9: a training call starting from zero counts
whose batch `[0, 1]` makes the counts equal. -/
theorem equal_counts_roundtrip_witness :
    (((mkLossBalancer 2).n_classes_int = 2 ∧
      (if true then update_n_sample_counter (mkLossBalancer 2).cum_n_samp_per_cls [0, 1]
       else (mkLossBalancer 2).cum_n_samp_per_cls) = List.replicate 2 1 ∧
      (0 : ℚ) < 1 ∧
      (∀ t ∈ ([0, 1] : List ℤ), 0 ≤ t ∧ t < (2 : ℤ)) ∧
      ([1, 2] : List ℚ).length = ([0, 1] : List ℤ).length)) ∧
    (((mkLossBalancer 2).call [1, 2] [0, 1] true).1).weights_norm =
      List.replicate 2 (some 1) ∧
    ((mkLossBalancer 2).call [1, 2] [0, 1] true).2 = ([1, 2] : List ℚ).map some := by
  have hcum : (if true then update_n_sample_counter (mkLossBalancer 2).cum_n_samp_per_cls [0, 1]
      else (mkLossBalancer 2).cum_n_samp_per_cls) = List.replicate 2 1 := by
    simp [update_n_sample_counter, mkLossBalancer, List.range_succ, List.countP_cons]
  refine ⟨⟨rfl, hcum, by norm_num, by decide, rfl⟩, ?_⟩
  exact equal_counts_roundtrip 2 1 (mkLossBalancer 2) [1, 2] [0, 1] true rfl hcum
    (by norm_num) (by decide) rfl

/-! ## Claim C5 (corrected) -/

/-- Counterexample to C5 as stated: after one training call the counts are
`[1, 2]`, so `0 < ClassCount[0] < ClassCount[1]`; but the immediately
following training call carries batch `[0, 0, 0, 1]`, which is counted
*before* the weights are computed, turning the counts into `[4, 3]` — a
sample of class 0 then receives weight `12/13`, strictly SMALLER than the
`16/13` a sample of class 1 receives. -/
theorem rare_class_weight_counterexample :
    (((mkLossBalancer 2).call [1, 1, 1] [0, 1, 1] true).1).cum_n_samp_per_cls = [1, 2] ∧
    ((((mkLossBalancer 2).call [1, 1, 1] [0, 1, 1] true).1).call
        [1, 1, 1, 1] [0, 0, 0, 1] true).1.weights_norm =
      [some (12/13), some (12/13), some (12/13), some (16/13)] ∧
    (12 : ℚ)/13 < 16/13 := by
  have h1 : ((mkLossBalancer 2).call [1, 1, 1] [0, 1, 1] true).1 =
      ⟨2, [1, 2], [some (3/2), some (3/4), some (3/4)]⟩ := by
    simp [LossBalancer.call, mkLossBalancer, update_n_sample_counter, probs_arr,
      recip_probs_arr, sample_weight, raw_weights, normalize_weights, tmean,
      List.range_succ, List.countP_cons]
    norm_num
  have h2 : ((⟨2, [1, 2], [some (3/2), some (3/4), some (3/4)]⟩ : LossBalancer).call
      [1, 1, 1, 1] [0, 0, 0, 1] true).1.weights_norm =
      [some (12/13), some (12/13), some (12/13), some (16/13)] := by
    simp [LossBalancer.call, update_n_sample_counter, probs_arr,
      recip_probs_arr, sample_weight, raw_weights, normalize_weights, tmean,
      List.range_succ, List.countP_cons]
    norm_num
  exact ⟨by rw [h1], by rw [h1, h2], by norm_num⟩

/-- Claim C5 amended: for any two classes `c1, c2` whose counts satisfy
`0 < ClassCount[c1] < ClassCount[c2]` *at the moment the following call
computes its weights* (that is, after that call's own count update when it is
a training call — for an eval call these are just the counts after the
prefix), a sample labelled `c1` receives a strictly larger normalized
per-sample weight than a sample labelled `c2` in that call. -/
theorem rare_class_weight_after_update (K : ℕ) (cs : List (List ℚ × List ℤ × Bool))
    (b : LossBalancer) (hb : b = runCalls (mkLossBalancer K) cs)
    (loss : List ℚ) (Tb : List ℤ) (train : Bool) (c1 c2 i j : ℕ)
    (h1 : 0 < ((b.call loss Tb train).1).cum_n_samp_per_cls.getD c1 0)
    (h12 : ((b.call loss Tb train).1).cum_n_samp_per_cls.getD c1 0 <
           ((b.call loss Tb train).1).cum_n_samp_per_cls.getD c2 0)
    (hi : i < Tb.length) (hj : j < Tb.length)
    (hti : Tb.getD i 0 = Int.ofNat c1) (htj : Tb.getD j 0 = Int.ofNat c2) :
    ∃ wi wj : ℚ,
      ((b.call loss Tb train).1).weights_norm.getD i none = some wi ∧
      ((b.call loss Tb train).1).weights_norm.getD j none = some wj ∧
      wj < wi := by
  obtain ⟨hKinv, hleninv, hnninv⟩ := runCalls_inv cs (mkLossBalancer K)
  have hbK : b.n_classes_int = K := by rw [hb]; exact hKinv
  have hblen : b.cum_n_samp_per_cls.length = K := by
    rw [hb, hleninv]
    simp [mkLossBalancer]
  have hbnn : ∀ r, 0 ≤ b.cum_n_samp_per_cls.getD r 0 := by
    rw [hb]
    exact hnninv fun r => le_of_eq (getD_replicate_zero K r).symm
  set cum := ((b.call loss Tb train).1).cum_n_samp_per_cls with hcum
  have hclen : cum.length = K := by rw [hcum, call_fst_cum_length, hblen]
  have hcnn : ∀ r, 0 ≤ cum.getD r 0 := by
    rw [hcum, call_fst_cum]
    cases train
    · exact hbnn
    · exact getD_update_n_sample_counter_nonneg _ _ hbnn
  have hc1K : c1 < K := by
    by_contra hcon
    rw [List.getD_eq_default _ _ (by omega)] at h1
    exact lt_irrefl 0 h1
  have hc2pos : 0 < cum.getD c2 0 := lt_trans h1 h12
  have hc2K : c2 < K := by
    by_contra hcon
    rw [List.getD_eq_default _ _ (by omega)] at hc2pos
    exact lt_irrefl 0 hc2pos
  have hmemnn : ∀ x ∈ cum, 0 ≤ x := by
    intro x hx
    obtain ⟨k, hk, rfl⟩ := List.mem_iff_getElem.mp hx
    have := hcnn k
    rwa [List.getD_eq_getElem _ _ hk] at this
  have hs : 0 < cum.sum := by
    have hle : cum.getD c2 0 ≤ cum.sum := by
      rw [List.getD_eq_getElem _ _ (by omega)]
      exact List.single_le_sum hmemnn _ (List.getElem_mem _)
    linarith
  set w := raw_weights b.n_classes_int cum Tb with hw
  have hwlen : w.length = Tb.length := length_raw_weights _ _ _
  have hwnn : ∀ x ∈ w, 0 ≤ x := raw_weights_nonneg _ _ _
  have hwi : w.getD i 0 = cum.sum / cum.getD c1 0 := by
    simp only [Int.ofNat_eq_coe] at hti
    rw [hw, getD_raw_weights _ _ _ _ hi, hti, sample_weight_eq,
      if_pos ⟨Int.natCast_nonneg c1, by rw [hbK]; exact_mod_cast hc1K⟩,
      Int.toNat_ofNat]
    exact getD_recip_probs_arr_eq cum c1 (by omega) h1 hs
  have hwj : w.getD j 0 = cum.sum / cum.getD c2 0 := by
    simp only [Int.ofNat_eq_coe] at htj
    rw [hw, getD_raw_weights _ _ _ _ hj, htj, sample_weight_eq,
      if_pos ⟨Int.natCast_nonneg c2, by rw [hbK]; exact_mod_cast hc2K⟩,
      Int.toNat_ofNat]
    exact getD_recip_probs_arr_eq cum c2 (by omega) hc2pos hs
  have hwipos : 0 < w.getD i 0 := by
    rw [hwi]
    exact div_pos hs h1
  have hm : 0 < tmean w := tmean_pos w hwnn i (by omega) hwipos
  refine ⟨w.getD i 0 / tmean w, w.getD j 0 / tmean w, ?_, ?_, ?_⟩
  · rw [call_fst_weights]
    exact getD_normalize_weights w i (ne_of_gt hm) (by omega)
  · rw [call_fst_weights]
    exact getD_normalize_weights w j (ne_of_gt hm) (by omega)
  · rw [hwi, hwj]
    exact (div_lt_div_iff_of_pos_right hm).mpr (div_lt_div_of_pos_left hs h1 h12)

/-- Witness for the amended C5: counts `[1, 2]` after one training call, then
an eval call with one sample of each class. -/
theorem rare_class_weight_after_update_witness :
    (0 < ((runCalls (mkLossBalancer 2) [([1, 1, 1], [0, 1, 1], true)]).call
        [1, 1] [0, 1] false).1.cum_n_samp_per_cls.getD 0 0 ∧
     ((runCalls (mkLossBalancer 2) [([1, 1, 1], [0, 1, 1], true)]).call
        [1, 1] [0, 1] false).1.cum_n_samp_per_cls.getD 0 0 <
       ((runCalls (mkLossBalancer 2) [([1, 1, 1], [0, 1, 1], true)]).call
        [1, 1] [0, 1] false).1.cum_n_samp_per_cls.getD 1 0 ∧
     (0 : ℕ) < ([0, 1] : List ℤ).length ∧ (1 : ℕ) < ([0, 1] : List ℤ).length ∧
     ([0, 1] : List ℤ).getD 0 0 = Int.ofNat 0 ∧
     ([0, 1] : List ℤ).getD 1 0 = Int.ofNat 1) ∧
    (∃ wi wj : ℚ,
      ((runCalls (mkLossBalancer 2) [([1, 1, 1], [0, 1, 1], true)]).call
          [1, 1] [0, 1] false).1.weights_norm.getD 0 none = some wi ∧
      ((runCalls (mkLossBalancer 2) [([1, 1, 1], [0, 1, 1], true)]).call
          [1, 1] [0, 1] false).1.weights_norm.getD 1 none = some wj ∧
      wj < wi) := by
  have hrun : runCalls (mkLossBalancer 2) [([1, 1, 1], [0, 1, 1], true)] =
      ⟨2, [1, 2], [some (3/2), some (3/4), some (3/4)]⟩ := by
    simp [runCalls, LossBalancer.call, mkLossBalancer, update_n_sample_counter,
      probs_arr, recip_probs_arr, sample_weight, raw_weights, normalize_weights,
      tmean, List.range_succ, List.countP_cons]
    norm_num
  have hcum2 : ((⟨2, [1, 2], [some (3/2), some (3/4), some (3/4)]⟩ :
      LossBalancer).call [1, 1] [0, 1] false).1.cum_n_samp_per_cls = [1, 2] := rfl
  have h1' : 0 < ((runCalls (mkLossBalancer 2) [([1, 1, 1], [0, 1, 1], true)]).call
      [1, 1] [0, 1] false).1.cum_n_samp_per_cls.getD 0 0 := by
    rw [hrun, hcum2]
    norm_num
  have h12' : ((runCalls (mkLossBalancer 2) [([1, 1, 1], [0, 1, 1], true)]).call
      [1, 1] [0, 1] false).1.cum_n_samp_per_cls.getD 0 0 <
      ((runCalls (mkLossBalancer 2) [([1, 1, 1], [0, 1, 1], true)]).call
      [1, 1] [0, 1] false).1.cum_n_samp_per_cls.getD 1 0 := by
    rw [hrun, hcum2]
    norm_num
  exact ⟨⟨h1', h12', by decide, by decide, by decide, by decide⟩,
    rare_class_weight_after_update 2 [([1, 1, 1], [0, 1, 1], true)] _ rfl
      [1, 1] [0, 1] false 0 1 0 1 h1' h12' (by decide) (by decide)
      (by decide) (by decide)⟩
